import Mathlib

/-!
Verification of the udon-ruby native binding (`ext/udon/src/lib.rs`) against
its specification.  The binding converts streaming events produced by the
`udon_core` parser into Ruby hashes.  Rust functions from `lib.rs` are embedded
as Lean definitions with the same names; the `udon_core` types the binding
consumes (`ChunkArena`, `ChunkSlice`, `StreamingEvent`, error codes, the
`StreamingParser` driver) are not part of this repository's sources and are
modelled from the specification where their internals matter.
-/

namespace Udon

/-- An IEEE-754 double carried opaquely through the binding as its 64-bit
pattern; the binding forwards it to `float_from_f64` without inspecting it. -/
structure F64 where
  bits : Nat
deriving DecidableEq, Repr

/-- A half-open byte span `[start, stop)`.  The Rust field `end` is a Lean
keyword and is embedded as `stop`. -/
structure Span where
  start : Nat
  stop : Nat
deriving DecidableEq, Repr

/-- Modelled from the spec: `udon_core::ChunkArena`, an append-only sequence of
immutable byte chunks (only its consumers are in the repository sources). -/
structure ChunkArena where
  chunks : List (List Nat)
deriving DecidableEq, Repr

/-- Modelled from the spec: `udon_core::ChunkSlice`, an opaque handle made of a
chunk identity, an offset and a length, referencing bytes in the arena. -/
structure ChunkSlice where
  chunk : Nat
  offset : Nat
  len : Nat
deriving DecidableEq, Repr

/-- Modelled from the spec: `append(bytes) -> base_offset` never rejects input
and returns a base usable to build slices into the new chunk. -/
def ChunkArena.append (a : ChunkArena) (bytes : List Nat) : ChunkArena × Nat :=
  ({ chunks := a.chunks ++ [bytes] }, a.chunks.length)

/-- Modelled from the spec: `resolve(slice)` returns the referenced bytes, or a
"not found" result when the handle is stale or invalid; it is total (never a
fatal fault). -/
def ChunkArena.resolve (a : ChunkArena) (s : ChunkSlice) : Option (List Nat) :=
  match a.chunks[s.chunk]? with
  | none => none
  | some c =>
      if s.offset + s.len ≤ c.length then
        some ((c.drop s.offset).take s.len)
      else
        none

/-- A slice handle is valid when its chunk exists and the referenced range lies
inside that chunk. -/
def ChunkArena.sliceValid (a : ChunkArena) (s : ChunkSlice) : Prop :=
  ∃ c, a.chunks[s.chunk]? = some c ∧ s.offset + s.len ≤ c.length

/-- Modelled from the spec: the closed set of parser error kinds. -/
inductive ErrorCode where
  | unexpectedEof
  | unexpectedChar
  | unclosed
  | unclosedStringValue
  | unclosedArray
  | unclosedFreeform
  | unclosedText
  | unclosedInterpolation
  | noTabs
deriving DecidableEq, Repr

/-- Modelled from the spec: the wire name of each error kind. -/
def ErrorCode.wireName : ErrorCode → String
  | .unexpectedEof => "unexpected_eof"
  | .unexpectedChar => "unexpected_char"
  | .unclosed => "unclosed"
  | .unclosedStringValue => "unclosed_string_value"
  | .unclosedArray => "unclosed_array"
  | .unclosedFreeform => "unclosed_freeform"
  | .unclosedText => "unclosed_text"
  | .unclosedInterpolation => "unclosed_interpolation"
  | .noTabs => "no_tabs"

/-- Modelled from the spec: each error kind carries a human-readable message;
this embeds `ErrorCode::message()` from `udon_core`. -/
def ErrorCode.message : ErrorCode → String
  | .unexpectedEof => "unexpected end of input"
  | .unexpectedChar => "unexpected character"
  | .unclosed => "unclosed construct"
  | .unclosedStringValue => "unclosed string value"
  | .unclosedArray => "unclosed array"
  | .unclosedFreeform => "unclosed freeform block"
  | .unclosedText => "unclosed text"
  | .unclosedInterpolation => "unclosed interpolation"
  | .noTabs => "tab characters are not allowed in indentation"

/-- Payload of `StreamingEvent::InlineDirective`; the binding reads the fields
`name`, `namespace` (embedded as `nspace`), `content` and `span`. -/
structure InlineDirectiveData where
  name : ChunkSlice
  nspace : Option ChunkSlice
  content : ChunkSlice
  span : Span
deriving DecidableEq, Repr

/-- The `udon_core::StreamingEvent` variants exactly as destructured by
`event_to_ruby_hash` in `lib.rs` (each pattern there lists all fields of its
variant, so the variants and field names are fixed by the binding source; the
numeric payloads of `RationalValue`/`ComplexValue` are modelled as integers). -/
inductive StreamingEvent where
  | elementStart (name : Option ChunkSlice) (span : Span)
  | elementEnd (span : Span)
  | embeddedStart (name : Option ChunkSlice) (span : Span)
  | embeddedEnd (span : Span)
  | attribute (key : ChunkSlice) (span : Span)
  | arrayStart (span : Span)
  | arrayEnd (span : Span)
  | nilValue (span : Span)
  | boolValue (value : Bool) (span : Span)
  | integerValue (value : Int) (span : Span)
  | floatValue (value : F64) (span : Span)
  | rationalValue (numerator : Int) (denominator : Int) (span : Span)
  | complexValue (real : Int) (imag : Int) (span : Span)
  | stringValue (value : ChunkSlice) (span : Span)
  | quotedStringValue (value : ChunkSlice) (span : Span)
  | text (content : ChunkSlice) (span : Span)
  | comment (content : ChunkSlice) (span : Span)
  | rawContent (content : ChunkSlice) (span : Span)
  | directiveStart (name : ChunkSlice) (nspace : Option ChunkSlice) (span : Span)
  | directiveEnd (span : Span)
  | inlineDirective (data : InlineDirectiveData)
  | interpolation (expression : ChunkSlice) (span : Span)
  | idReference (id : ChunkSlice) (span : Span)
  | attributeMerge (id : ChunkSlice) (span : Span)
  | freeformStart (span : Span)
  | freeformEnd (span : Span)
  | error (code : ErrorCode) (span : Span)
deriving DecidableEq, Repr

/-- A Ruby value as produced by the binding: nil, booleans, integers, floats,
symbols, byte strings, and hashes with symbol keys in insertion order. -/
inductive RValue where
  | vNil
  | vBool (b : Bool)
  | vInt (i : Int)
  | vFloat (f : F64)
  | vSym (s : String)
  | vStr (bytes : List Nat)
  | vHash (entries : List (String × RValue))

/-- A Ruby hash built by successive `aset` calls with distinct symbol keys:
an association list in insertion order. -/
abbrev RubyHash := List (String × RValue)

/-- Lookup of a key in a Ruby hash. -/
def hlookup (h : RubyHash) (k : String) : Option RValue :=
  match h with
  | [] => none
  | (k₁, v) :: rest => if k₁ = k then some v else hlookup rest k

/-- The keys of a Ruby hash, in insertion order. -/
def hkeys (h : RubyHash) : List String :=
  h.map Prod.fst

/-- The bytes of a Rust/Ruby string literal (`RString::new` stores the raw
UTF-8 bytes of the `&str`; every string the binding formats is ASCII, where
the UTF-8 bytes are exactly the character codepoints). -/
def strBytes (s : String) : List Nat :=
  s.data.map Char.toNat

/-- Rust `Display` of a signed integer: a minus sign for negatives, then the
decimal digits. -/
def rustIntDisplay (i : Int) : String :=
  if i < 0 then "-" ++ Nat.repr i.natAbs else Nat.repr i.natAbs

/-- Embeds `slice_to_rstring` from `lib.rs`: resolve a `ChunkSlice` via the
arena; a resolved slice becomes a Ruby string of exactly those bytes
(`RString::from_slice`), an unresolvable one becomes the empty string. -/
def slice_to_rstring (arena : ChunkArena) (slice : ChunkSlice) : RValue :=
  match arena.resolve slice with
  | some bytes => .vStr bytes
  | none => .vStr []

/-- Embeds `span_to_hash` from `lib.rs`: the hash `\x7b start: n, end: n \x7d`
with the `u32` bounds widened to `i64`. -/
def span_to_hash (start : Nat) (stop : Nat) : RubyHash :=
  [("start", .vInt (Int.ofNat start)), ("end", .vInt (Int.ofNat stop))]

/-- Embeds `event_to_ruby_hash` from `lib.rs`: each `StreamingEvent` variant
becomes a Ruby hash, with fields inserted in the source's `aset` order. -/
def event_to_ruby_hash (arena : ChunkArena) (event : StreamingEvent) : RubyHash :=
  match event with
  | .elementStart name span =>
      [("type", .vSym "element_start"),
       ("name", match name with
                | some n => slice_to_rstring arena n
                | none => .vNil),
       ("span", .vHash (span_to_hash span.start span.stop))]
  | .elementEnd span =>
      [("type", .vSym "element_end"),
       ("span", .vHash (span_to_hash span.start span.stop))]
  | .embeddedStart name span =>
      [("type", .vSym "embedded_start"),
       ("name", match name with
                | some n => slice_to_rstring arena n
                | none => .vNil),
       ("span", .vHash (span_to_hash span.start span.stop))]
  | .embeddedEnd span =>
      [("type", .vSym "embedded_end"),
       ("span", .vHash (span_to_hash span.start span.stop))]
  | .attribute key span =>
      [("type", .vSym "attribute"),
       ("key", slice_to_rstring arena key),
       ("span", .vHash (span_to_hash span.start span.stop))]
  | .arrayStart span =>
      [("type", .vSym "array_start"),
       ("span", .vHash (span_to_hash span.start span.stop))]
  | .arrayEnd span =>
      [("type", .vSym "array_end"),
       ("span", .vHash (span_to_hash span.start span.stop))]
  | .nilValue span =>
      [("type", .vSym "nil_value"),
       ("value", .vNil),
       ("span", .vHash (span_to_hash span.start span.stop))]
  | .boolValue value span =>
      [("type", .vSym "bool_value"),
       ("value", .vBool value),
       ("span", .vHash (span_to_hash span.start span.stop))]
  | .integerValue value span =>
      [("type", .vSym "integer_value"),
       ("value", .vInt value),
       ("span", .vHash (span_to_hash span.start span.stop))]
  | .floatValue value span =>
      [("type", .vSym "float_value"),
       ("value", .vFloat value),
       ("span", .vHash (span_to_hash span.start span.stop))]
  | .rationalValue numerator denominator span =>
      [("type", .vSym "rational_value"),
       ("value", .vStr (strBytes (rustIntDisplay numerator ++ "/" ++
                                  rustIntDisplay denominator))),
       ("span", .vHash (span_to_hash span.start span.stop))]
  | .complexValue real imag span =>
      [("type", .vSym "complex_value"),
       ("value", .vStr (strBytes (rustIntDisplay real ++ "+" ++
                                  rustIntDisplay imag ++ "i"))),
       ("span", .vHash (span_to_hash span.start span.stop))]
  | .stringValue value span =>
      [("type", .vSym "string_value"),
       ("value", slice_to_rstring arena value),
       ("span", .vHash (span_to_hash span.start span.stop))]
  | .quotedStringValue value span =>
      [("type", .vSym "quoted_string_value"),
       ("value", slice_to_rstring arena value),
       ("span", .vHash (span_to_hash span.start span.stop))]
  | .text content span =>
      [("type", .vSym "text"),
       ("content", slice_to_rstring arena content),
       ("span", .vHash (span_to_hash span.start span.stop))]
  | .comment content span =>
      [("type", .vSym "comment"),
       ("content", slice_to_rstring arena content),
       ("span", .vHash (span_to_hash span.start span.stop))]
  | .rawContent content span =>
      [("type", .vSym "raw_content"),
       ("content", slice_to_rstring arena content),
       ("span", .vHash (span_to_hash span.start span.stop))]
  | .directiveStart name nspace span =>
      [("type", .vSym "directive_start"),
       ("name", slice_to_rstring arena name),
       ("namespace", match nspace with
                     | some n => slice_to_rstring arena n
                     | none => .vNil),
       ("span", .vHash (span_to_hash span.start span.stop))]
  | .directiveEnd span =>
      [("type", .vSym "directive_end"),
       ("span", .vHash (span_to_hash span.start span.stop))]
  | .inlineDirective data =>
      [("type", .vSym "inline_directive"),
       ("name", slice_to_rstring arena data.name),
       ("namespace", match data.nspace with
                     | some n => slice_to_rstring arena n
                     | none => .vNil),
       ("content", slice_to_rstring arena data.content),
       ("span", .vHash (span_to_hash data.span.start data.span.stop))]
  | .interpolation expression span =>
      [("type", .vSym "interpolation"),
       ("expression", slice_to_rstring arena expression),
       ("span", .vHash (span_to_hash span.start span.stop))]
  | .idReference id span =>
      [("type", .vSym "id_reference"),
       ("id", slice_to_rstring arena id),
       ("span", .vHash (span_to_hash span.start span.stop))]
  | .attributeMerge id span =>
      [("type", .vSym "attribute_merge"),
       ("id", slice_to_rstring arena id),
       ("span", .vHash (span_to_hash span.start span.stop))]
  | .freeformStart span =>
      [("type", .vSym "freeform_start"),
       ("span", .vHash (span_to_hash span.start span.stop))]
  | .freeformEnd span =>
      [("type", .vSym "freeform_end"),
       ("span", .vHash (span_to_hash span.start span.stop))]
  | .error code span =>
      [("type", .vSym "error"),
       ("message", .vStr (strBytes code.message)),
       ("span", .vHash (span_to_hash span.start span.stop))]

/-- The wire name of an event's kind: the symbol `event_to_ruby_hash` must put
in the serialized `type` field. -/
def StreamingEvent.kindName : StreamingEvent → String
  | .elementStart .. => "element_start"
  | .elementEnd .. => "element_end"
  | .embeddedStart .. => "embedded_start"
  | .embeddedEnd .. => "embedded_end"
  | .attribute .. => "attribute"
  | .arrayStart .. => "array_start"
  | .arrayEnd .. => "array_end"
  | .nilValue .. => "nil_value"
  | .boolValue .. => "bool_value"
  | .integerValue .. => "integer_value"
  | .floatValue .. => "float_value"
  | .rationalValue .. => "rational_value"
  | .complexValue .. => "complex_value"
  | .stringValue .. => "string_value"
  | .quotedStringValue .. => "quoted_string_value"
  | .text .. => "text"
  | .comment .. => "comment"
  | .rawContent .. => "raw_content"
  | .directiveStart .. => "directive_start"
  | .directiveEnd .. => "directive_end"
  | .inlineDirective .. => "inline_directive"
  | .interpolation .. => "interpolation"
  | .idReference .. => "id_reference"
  | .attributeMerge .. => "attribute_merge"
  | .freeformStart .. => "freeform_start"
  | .freeformEnd .. => "freeform_end"
  | .error .. => "error"

/-- The span carried by an event. -/
def StreamingEvent.span : StreamingEvent → Span
  | .elementStart _ sp => sp
  | .elementEnd sp => sp
  | .embeddedStart _ sp => sp
  | .embeddedEnd sp => sp
  | .attribute _ sp => sp
  | .arrayStart sp => sp
  | .arrayEnd sp => sp
  | .nilValue sp => sp
  | .boolValue _ sp => sp
  | .integerValue _ sp => sp
  | .floatValue _ sp => sp
  | .rationalValue _ _ sp => sp
  | .complexValue _ _ sp => sp
  | .stringValue _ sp => sp
  | .quotedStringValue _ sp => sp
  | .text _ sp => sp
  | .comment _ sp => sp
  | .rawContent _ sp => sp
  | .directiveStart _ _ sp => sp
  | .directiveEnd sp => sp
  | .inlineDirective d => d.span
  | .interpolation _ sp => sp
  | .idReference _ sp => sp
  | .attributeMerge _ sp => sp
  | .freeformStart sp => sp
  | .freeformEnd sp => sp
  | .error _ sp => sp

/-- The content-bearing fields of an event: each pair gives a serialized field
name and the arena slice whose raw bytes that field must carry. -/
def contentSlices : StreamingEvent → List (String × ChunkSlice)
  | .elementStart name _ =>
      match name with
      | some n => [("name", n)]
      | none => []
  | .embeddedStart name _ =>
      match name with
      | some n => [("name", n)]
      | none => []
  | .attribute key _ => [("key", key)]
  | .stringValue v _ => [("value", v)]
  | .quotedStringValue v _ => [("value", v)]
  | .text c _ => [("content", c)]
  | .comment c _ => [("content", c)]
  | .rawContent c _ => [("content", c)]
  | .directiveStart n ns _ =>
      ("name", n) ::
        (match ns with
         | some m => [("namespace", m)]
         | none => [])
  | .inlineDirective d =>
      ("name", d.name) ::
        ((match d.nspace with
          | some m => [("namespace", m)]
          | none => []) ++ [("content", d.content)])
  | .interpolation ex _ => [("expression", ex)]
  | .idReference i _ => [("id", i)]
  | .attributeMerge i _ => [("id", i)]
  | _ => []

variable {σ : Type}

/-- Modelled from the spec: the interface of the `udon_core::StreamingParser`
driver consumed by `parse` in `lib.rs` (`new(capacity_hint)`, `feed`, `finish`,
`read`, `arena`).  `queued` measures the buffered events still to be read and
`read_queued` records that `read` pops one of finitely many buffered events. -/
structure CoreParser (σ : Type) where
  new : Nat → σ
  feed : σ → List Nat → σ
  finish : σ → σ
  read : σ → Option (StreamingEvent × σ)
  arena : σ → ChunkArena
  queued : σ → Nat
  read_queued : ∀ s e s₁, read s = some (e, s₁) → queued s₁ < queued s

/-- The `while let Some(event) = parser.read()` loop of `parse` in `lib.rs`:
drain the buffered events in order, serializing each with the arena of the
parser state after that `read`. -/
def CoreParser.readAll (P : CoreParser σ) (s : σ) : List RubyHash :=
  match h : P.read s with
  | none => []
  | some (e, s₁) => event_to_ruby_hash (P.arena s₁) e :: P.readAll s₁
termination_by P.queued s
decreasing_by exact P.read_queued s e s₁ h

/-- Embeds `parse` from `lib.rs`, parametrised by the core parser: create a
streaming parser with capacity `max (len / 50) 64`, feed the input once,
finish, then collect every event as a Ruby hash. -/
def parse (P : CoreParser σ) (input : List Nat) : List RubyHash :=
  let capacity := max (input.length / 50) 64
  let parser := P.new capacity
  let parser := P.feed parser input
  let parser := P.finish parser
  P.readAll parser

/-- The reference procedure of the one-shot contract, stated from the spec's
words: construct a fresh streaming parser, call `feed(bytes)` once, then
`finish()`, then repeatedly call `read()` until it yields none, serializing
each event in that order. -/
def parseAllSpec (P : CoreParser σ) (hint : Nat) (input : List Nat) : List RubyHash :=
  P.readAll (P.finish (P.feed (P.new hint) input))

/-- A degenerate core parser used to exhibit the driver interface concretely:
it buffers nothing and emits no events. -/
def trivialCore : CoreParser Unit where
  new := fun _ => ()
  feed := fun s _ => s
  finish := fun s => s
  read := fun _ => none
  arena := fun _ => ⟨[]⟩
  queued := fun _ => 0
  read_queued := by intro s e s₁ h; simp at h

/-- Modelled from the spec: the driver's resumable scan.  §4.2 makes scanner
state "externally resumable so a single logical scan can be resumed across
multiple `feed` calls without re-scanning prior bytes", and §4.4 allows
arbitrarily sized (including single-byte) chunks, so `feed` acts as the left
fold of a per-byte transition over the saved state; `flush` is `finish()` and
`events` reads off the completed event sequence. -/
structure FeedMachine (σ : Type) where
  step : σ → Nat → σ
  flush : σ → σ
  events : σ → List StreamingEvent

/-- Modelled from the spec: `feed(bytes)` resumes from the saved state and
processes the new bytes in order. -/
def FeedMachine.feed (M : FeedMachine σ) (s : σ) (bytes : List Nat) : σ :=
  bytes.foldl M.step s

/-- A one-chunk arena holding the bytes of the spec's Scenario A input. -/
def scenarioArena : ChunkArena :=
  ⟨[strBytes "div#id.class1.class2\x7battr: 1\x7dtext"]⟩

/-- Claim C1: for every input byte string, the one-shot entry point
`parse(bytes)` returns exactly the ordered sequence of serialized events
obtained by constructing a fresh streaming parser, calling `feed(bytes)` once,
then `finish()`, then repeatedly calling `read()` until it yields none,
serializing each event in that order.  The core driver is any `CoreParser`
whose drained output does not depend on the capacity hint, which the spec
guarantees (`capacity_hint` "sizes only the initial internal queue/buffer
allocation; it never bounds correctness"). -/
theorem parse_one_shot_refines_streaming {σ : Type} (P : CoreParser σ)
    (hcap : ∀ c₁ c₂ bytes, P.readAll (P.finish (P.feed (P.new c₁) bytes)) =
        P.readAll (P.finish (P.feed (P.new c₂) bytes)))
    (hint : Nat) (input : List Nat) :
    parse P input = parseAllSpec P hint input :=
  hcap (max (input.length / 50) 64) hint input

/-- Witness for C1: the refinement evaluated on a concrete core parser and
input, with the capacity-independence hypothesis discharged. -/
theorem parse_one_shot_refines_streaming_witness :
    parse trivialCore [100, 105, 118] = parseAllSpec trivialCore 0 [100, 105, 118] :=
  parse_one_shot_refines_streaming trivialCore (fun _ _ _ => rfl) 0 [100, 105, 118]

/-- Claim C2: for every event of every kind, the serialized boundary
representation contains a `type` field naming the kind and a `span` field that
is a hash with `start` and `end` equal to the event's span bounds. -/
theorem event_hash_carries_type_and_span (arena : ChunkArena) (e : StreamingEvent) :
    hlookup (event_to_ruby_hash arena e) "type" = some (.vSym e.kindName) ∧
    hlookup (event_to_ruby_hash arena e) "span" =
      some (.vHash [("start", .vInt (Int.ofNat e.span.start)),
                    ("end", .vInt (Int.ofNat e.span.stop))]) := by
  cases e <;> exact ⟨rfl, rfl⟩

/-- Claim C3: for every content-bearing event whose slice resolves in the
arena, the serialized field contains exactly the resolved raw bytes, with no
re-encoding and no validation of the bytes as text. -/
theorem content_bytes_pass_through_unmodified (arena : ChunkArena)
    (e : StreamingEvent) (f : String) (sl : ChunkSlice) (bytes : List Nat)
    (hmem : (f, sl) ∈ contentSlices e)
    (hres : arena.resolve sl = some bytes) :
    hlookup (event_to_ruby_hash arena e) f = some (.vStr bytes) := by
  cases e with
  | elementStart name sp =>
      cases name with
      | none => simp [contentSlices] at hmem
      | some n =>
          simp only [contentSlices, List.mem_singleton, Prod.mk.injEq] at hmem
          obtain ⟨rfl, rfl⟩ := hmem
          simp [event_to_ruby_hash, hlookup, slice_to_rstring, hres]
  | embeddedStart name sp =>
      cases name with
      | none => simp [contentSlices] at hmem
      | some n =>
          simp only [contentSlices, List.mem_singleton, Prod.mk.injEq] at hmem
          obtain ⟨rfl, rfl⟩ := hmem
          simp [event_to_ruby_hash, hlookup, slice_to_rstring, hres]
  | «attribute» key sp =>
      simp only [contentSlices, List.mem_singleton, Prod.mk.injEq] at hmem
      obtain ⟨rfl, rfl⟩ := hmem
      simp [event_to_ruby_hash, hlookup, slice_to_rstring, hres]
  | stringValue v sp =>
      simp only [contentSlices, List.mem_singleton, Prod.mk.injEq] at hmem
      obtain ⟨rfl, rfl⟩ := hmem
      simp [event_to_ruby_hash, hlookup, slice_to_rstring, hres]
  | quotedStringValue v sp =>
      simp only [contentSlices, List.mem_singleton, Prod.mk.injEq] at hmem
      obtain ⟨rfl, rfl⟩ := hmem
      simp [event_to_ruby_hash, hlookup, slice_to_rstring, hres]
  | text c sp =>
      simp only [contentSlices, List.mem_singleton, Prod.mk.injEq] at hmem
      obtain ⟨rfl, rfl⟩ := hmem
      simp [event_to_ruby_hash, hlookup, slice_to_rstring, hres]
  | comment c sp =>
      simp only [contentSlices, List.mem_singleton, Prod.mk.injEq] at hmem
      obtain ⟨rfl, rfl⟩ := hmem
      simp [event_to_ruby_hash, hlookup, slice_to_rstring, hres]
  | rawContent c sp =>
      simp only [contentSlices, List.mem_singleton, Prod.mk.injEq] at hmem
      obtain ⟨rfl, rfl⟩ := hmem
      simp [event_to_ruby_hash, hlookup, slice_to_rstring, hres]
  | directiveStart n ns sp =>
      cases ns with
      | none =>
          simp only [contentSlices, List.mem_singleton, Prod.mk.injEq,
            List.not_mem_nil, List.mem_cons, or_false] at hmem
          obtain ⟨rfl, rfl⟩ := hmem
          simp [event_to_ruby_hash, hlookup, slice_to_rstring, hres]
      | some m =>
          simp only [contentSlices, List.mem_cons, List.mem_singleton,
            List.not_mem_nil, or_false, Prod.mk.injEq] at hmem
          rcases hmem with ⟨rfl, rfl⟩ | ⟨rfl, rfl⟩ <;>
            simp [event_to_ruby_hash, hlookup, slice_to_rstring, hres]
  | inlineDirective d =>
      rcases d with ⟨dn, dns, dc, dsp⟩
      cases dns with
      | none =>
          simp only [contentSlices, List.nil_append, List.mem_cons,
            List.mem_singleton, List.not_mem_nil, or_false, Prod.mk.injEq] at hmem
          rcases hmem with ⟨rfl, rfl⟩ | ⟨rfl, rfl⟩ <;>
            simp [event_to_ruby_hash, hlookup, slice_to_rstring, hres]
      | some m =>
          simp only [contentSlices, List.cons_append, List.nil_append,
            List.mem_cons, List.mem_singleton, List.not_mem_nil, or_false,
            Prod.mk.injEq] at hmem
          rcases hmem with ⟨rfl, rfl⟩ | ⟨rfl, rfl⟩ | ⟨rfl, rfl⟩ <;>
            simp [event_to_ruby_hash, hlookup, slice_to_rstring, hres]
  | interpolation ex sp =>
      simp only [contentSlices, List.mem_singleton, Prod.mk.injEq] at hmem
      obtain ⟨rfl, rfl⟩ := hmem
      simp [event_to_ruby_hash, hlookup, slice_to_rstring, hres]
  | idReference i sp =>
      simp only [contentSlices, List.mem_singleton, Prod.mk.injEq] at hmem
      obtain ⟨rfl, rfl⟩ := hmem
      simp [event_to_ruby_hash, hlookup, slice_to_rstring, hres]
  | attributeMerge i sp =>
      simp only [contentSlices, List.mem_singleton, Prod.mk.injEq] at hmem
      obtain ⟨rfl, rfl⟩ := hmem
      simp [event_to_ruby_hash, hlookup, slice_to_rstring, hres]
  | elementEnd sp => simp [contentSlices] at hmem
  | embeddedEnd sp => simp [contentSlices] at hmem
  | arrayStart sp => simp [contentSlices] at hmem
  | arrayEnd sp => simp [contentSlices] at hmem
  | nilValue sp => simp [contentSlices] at hmem
  | boolValue v sp => simp [contentSlices] at hmem
  | integerValue v sp => simp [contentSlices] at hmem
  | floatValue v sp => simp [contentSlices] at hmem
  | rationalValue nn dd sp => simp [contentSlices] at hmem
  | complexValue rr ii sp => simp [contentSlices] at hmem
  | directiveEnd sp => simp [contentSlices] at hmem
  | freeformStart sp => simp [contentSlices] at hmem
  | freeformEnd sp => simp [contentSlices] at hmem
  | error c sp => simp [contentSlices] at hmem

/-- Witness for C3: a Text event over a concrete arena serializes its resolved
bytes unchanged. -/
theorem content_bytes_pass_through_unmodified_witness :
    hlookup (event_to_ruby_hash ⟨[strBytes "text"]⟩ (.text ⟨0, 0, 4⟩ ⟨29, 33⟩))
      "content" = some (.vStr (strBytes "text")) :=
  content_bytes_pass_through_unmodified ⟨[strBytes "text"]⟩
    (.text ⟨0, 0, 4⟩ ⟨29, 33⟩) "content" ⟨0, 0, 4⟩ (strBytes "text")
    (by simp [contentSlices]) (by decide)

/-- Counterexample to C4 as stated: an `ElementStart` event carries no id and
no classes — for the Scenario A input bytes, an ElementStart whose name slice
resolves to `div` serializes with no `id` and no `classes` field at all. -/
theorem element_start_carries_no_id_or_classes :
    hlookup (event_to_ruby_hash scenarioArena
        (.elementStart (some ⟨0, 0, 3⟩) ⟨0, 29⟩)) "name" = some (.vStr (strBytes "div")) ∧
    hlookup (event_to_ruby_hash scenarioArena
        (.elementStart (some ⟨0, 0, 3⟩) ⟨0, 29⟩)) "id" = none ∧
    hlookup (event_to_ruby_hash scenarioArena
        (.elementStart (some ⟨0, 0, 3⟩) ⟨0, 29⟩)) "classes" = none :=
  ⟨rfl, rfl, rfl⟩

/-- Claim C4 (amended): an ElementStart event optionally carries only the
element's name; its serialization has exactly the fields `type`, `name`
(the resolved name bytes, or nil when absent) and `span`, so no id, class or
suffix information is carried on the event. -/
theorem element_start_serialized_fields (arena : ChunkArena)
    (name : Option ChunkSlice) (span : Span) :
    hkeys (event_to_ruby_hash arena (.elementStart name span)) =
      ["type", "name", "span"] ∧
    hlookup (event_to_ruby_hash arena (.elementStart name span)) "name" =
      some (match name with
            | some n => slice_to_rstring arena n
            | none => .vNil) := by
  cases name <;> exact ⟨rfl, rfl⟩

/-- Counterexample to C5 as stated: an Attribute event carries no value — the
serialized Attribute for key `attr` of the Scenario A input has no `value`
field at all (scalar or Array). -/
theorem attribute_event_carries_no_value :
    hlookup (event_to_ruby_hash scenarioArena (.attribute ⟨0, 21, 4⟩ ⟨20, 29⟩)) "key" =
      some (.vStr (strBytes "attr")) ∧
    hlookup (event_to_ruby_hash scenarioArena (.attribute ⟨0, 21, 4⟩ ⟨20, 29⟩)) "value" =
      none :=
  ⟨rfl, rfl⟩

/-- Claim C5 (amended): an Attribute event carries a key and a span only; it
has no value field on the event itself, so any value arrives as separate
subsequent value events and a key with nothing following is presence-only. -/
theorem attribute_serialized_fields (arena : ChunkArena) (key : ChunkSlice)
    (span : Span) :
    hkeys (event_to_ruby_hash arena (.attribute key span)) = ["type", "key", "span"] ∧
    hlookup (event_to_ruby_hash arena (.attribute key span)) "value" = none :=
  ⟨rfl, rfl⟩

/-- Counterexample to C6 as stated: a serialized Error event does not carry
its kind's wire name — for the `unexpected_eof` kind the hash has only the
fields `type` (the constant symbol `error`, not the wire name), `message` and
`span`, and no `code` field. -/
theorem error_event_lacks_wire_name :
    hkeys (event_to_ruby_hash ⟨[]⟩ (.error .unexpectedEof ⟨0, 0⟩)) =
      ["type", "message", "span"] ∧
    hlookup (event_to_ruby_hash ⟨[]⟩ (.error .unexpectedEof ⟨0, 0⟩)) "type" =
      some (.vSym "error") ∧
    hlookup (event_to_ruby_hash ⟨[]⟩ (.error .unexpectedEof ⟨0, 0⟩)) "code" = none ∧
    ErrorCode.unexpectedEof.wireName ≠ "error" :=
  ⟨rfl, rfl, rfl, by decide⟩

/-- Claim C6 (amended): every serialized Error event has the constant `type`
symbol `error` and carries the kind's human-readable message and the fault
span; the kind's wire name is not serialized as a field. -/
theorem error_serialized_fields (arena : ChunkArena) (code : ErrorCode)
    (span : Span) :
    hlookup (event_to_ruby_hash arena (.error code span)) "type" =
      some (.vSym "error") ∧
    hlookup (event_to_ruby_hash arena (.error code span)) "message" =
      some (.vStr (strBytes code.message)) ∧
    hlookup (event_to_ruby_hash arena (.error code span)) "span" =
      some (.vHash (span_to_hash span.start span.stop)) ∧
    hlookup (event_to_ruby_hash arena (.error code span)) "code" = none :=
  ⟨rfl, rfl, rfl, rfl⟩

/-- Claim C7: for every slice handle, `resolve` returns the referenced bytes
exactly when the handle is valid and a "not found" result when it is stale or
invalid; being a total function into `Option`, it never aborts or raises. -/
theorem resolve_total_matches_validity (a : ChunkArena) (s : ChunkSlice) :
    ((∃ bytes, a.resolve s = some bytes) ↔ a.sliceValid s) ∧
    (¬ a.sliceValid s → a.resolve s = none) := by
  have hiff : (∃ bytes, a.resolve s = some bytes) ↔ a.sliceValid s := by
    constructor
    · rintro ⟨bytes, hb⟩
      rcases hget : a.chunks[s.chunk]? with _ | c
      · simp [ChunkArena.resolve, hget] at hb
      · simp only [ChunkArena.resolve, hget] at hb
        by_cases hle : s.offset + s.len ≤ c.length
        · exact ⟨c, hget, hle⟩
        · rw [if_neg hle] at hb
          simp at hb
    · rintro ⟨c, hget, hle⟩
      refine ⟨(c.drop s.offset).take s.len, ?_⟩
      simp only [ChunkArena.resolve, hget]
      rw [if_pos hle]
  refine ⟨hiff, fun hnv => ?_⟩
  rcases hr : a.resolve s with _ | bytes
  · rfl
  · exact absurd (hiff.mp ⟨bytes, hr⟩) hnv

/-- Witness for C7: a valid handle resolves to bytes and a stale handle on an
empty arena resolves to none. -/
theorem resolve_total_matches_validity_witness :
    (∃ bytes, ChunkArena.resolve ⟨[[7]]⟩ ⟨0, 0, 1⟩ = some bytes) ∧
    ChunkArena.resolve ⟨[]⟩ ⟨0, 0, 1⟩ = none :=
  ⟨(resolve_total_matches_validity ⟨[[7]]⟩ ⟨0, 0, 1⟩).1.mpr ⟨[7], rfl, by decide⟩,
   (resolve_total_matches_validity ⟨[]⟩ ⟨0, 0, 1⟩).2
     (by rintro ⟨c, hc, -⟩; simp at hc)⟩

/-- Claim C8: for all byte strings `a` and `b` and every split point, the
event sequence of `feed(a); feed(b); finish()` equals that of
`feed(a+b); finish()`, for every driver whose `feed` resumes a per-byte
transition from the saved state as the spec requires. -/
theorem chunking_invariance {σ : Type} (M : FeedMachine σ) (s : σ)
    (a b : List Nat) :
    M.events (M.flush (M.feed (M.feed s a) b)) =
      M.events (M.flush (M.feed s (a ++ b))) := by
  simp only [FeedMachine.feed, List.foldl_append]

/-- Claim C9: an unresolvable (stale or invalid) slice is serialized as the
empty Ruby string rather than nil and without raising, and the result is
indistinguishable from that of a slice resolving to genuinely empty content. -/
theorem unresolvable_slice_serializes_empty (a : ChunkArena) (sl : ChunkSlice)
    (h : a.resolve sl = none) :
    slice_to_rstring a sl = .vStr [] ∧
    ∀ a₁ sl₁, a₁.resolve sl₁ = some [] →
      slice_to_rstring a₁ sl₁ = slice_to_rstring a sl := by
  constructor
  · simp [slice_to_rstring, h]
  · intro a₁ sl₁ h₁
    simp [slice_to_rstring, h, h₁]

/-- Witness for C9: a stale handle on the empty arena yields the empty string,
equal to the result for a slice resolving to empty content. -/
theorem unresolvable_slice_serializes_empty_witness :
    slice_to_rstring ⟨[]⟩ ⟨0, 0, 1⟩ = .vStr [] ∧
    slice_to_rstring ⟨[[]]⟩ ⟨0, 0, 0⟩ = slice_to_rstring ⟨[]⟩ ⟨0, 0, 1⟩ :=
  ⟨(unresolvable_slice_serializes_empty ⟨[]⟩ ⟨0, 0, 1⟩ rfl).1,
   (unresolvable_slice_serializes_empty ⟨[]⟩ ⟨0, 0, 1⟩ rfl).2 ⟨[[]]⟩ ⟨0, 0, 0⟩ rfl⟩

theorem plus_minus_fold (x y : String) :
    x ++ "+" ++ ("-" ++ y) = x ++ "+-" ++ y := by
  rw [String.append_assoc x, ← String.append_assoc ("+" : String),
      ← String.append_assoc x]
  exact rfl

theorem rustIntDisplay_neg (i : Int) (h : i < 0) :
    rustIntDisplay i = "-" ++ Nat.repr i.natAbs := by
  simp [rustIntDisplay, h]

/-- Claim C10: a RationalValue with numerator n and denominator d serializes
its `value` field as the formatted string `n/d`, and a ComplexValue with real
part r and imaginary part i as the formatted string `r+ii`, rather than as
separate numeric fields; a negative imaginary part yields a `+-` sequence. -/
theorem rational_complex_value_formatting (arena : ChunkArena)
    (n d r i : Int) (sp₁ sp₂ : Span) :
    hlookup (event_to_ruby_hash arena (.rationalValue n d sp₁)) "value" =
      some (.vStr (strBytes (rustIntDisplay n ++ "/" ++ rustIntDisplay d))) ∧
    hlookup (event_to_ruby_hash arena (.complexValue r i sp₂)) "value" =
      some (.vStr (strBytes (rustIntDisplay r ++ "+" ++ rustIntDisplay i ++ "i"))) ∧
    (i < 0 → ∃ tail, rustIntDisplay r ++ "+" ++ rustIntDisplay i ++ "i" =
        rustIntDisplay r ++ "+-" ++ tail) := by
  refine ⟨rfl, rfl, fun hneg => ⟨Nat.repr i.natAbs ++ "i", ?_⟩⟩
  rw [rustIntDisplay_neg i hneg,
      String.append_assoc (rustIntDisplay r ++ "+"),
      String.append_assoc ("-" : String)]
  exact plus_minus_fold (rustIntDisplay r) (Nat.repr i.natAbs ++ "i")

/-- Witness for C10: the complex value `1 + (-2)i` serializes as a formatted
string containing the `+-` sequence. -/
theorem rational_complex_value_formatting_witness :
    hlookup (event_to_ruby_hash ⟨[]⟩ (.complexValue 1 (-2) ⟨0, 5⟩)) "value" =
      some (.vStr (strBytes (rustIntDisplay 1 ++ "+" ++ rustIntDisplay (-2) ++ "i"))) ∧
    (∃ tail, rustIntDisplay 1 ++ "+" ++ rustIntDisplay (-2) ++ "i" =
        rustIntDisplay 1 ++ "+-" ++ tail) :=
  ⟨(rational_complex_value_formatting ⟨[]⟩ 1 2 1 (-2) ⟨0, 3⟩ ⟨0, 5⟩).2.1,
   (rational_complex_value_formatting ⟨[]⟩ 1 2 1 (-2) ⟨0, 3⟩ ⟨0, 5⟩).2.2 (by decide)⟩

end Udon
